import Mathlib

/-!
# Verification of `scripts/compare.py`

A shallow embedding of the benchmark-comparison script: it reads two CSV
files into dataframes, outer-merges them on the `Name` column with a
one-to-one validation and `(_ref, _res)` suffixes, derives the column
`Speedup_rel = (Mean_ref - Mean_res) / Mean_ref`, and prints the rows with
`Speedup_rel < -SIGNIFICANT` under `SLOWER` and those with
`Speedup_rel > SIGNIFICANT` under `FASTER`.

Floating-point values are modelled as extended rationals (`PFloat`): a
finite rational, the two infinities, and `nan`.  Pandas uses `NaN` both for
missing cells introduced by the outer join and for `0/0`, so one `nan`
constructor covers both.  Exact binary rounding is irrelevant to every
property considered here, so finite values carry exact rationals.
-/

/-- Exact rational subtraction, phrased on numerators and denominators so
that it evaluates inside the kernel (`Rat.sub` is `@[irreducible]`);
`qsub_eq` identifies it with `a - b`. -/
def qsub (a b : ℚ) : ℚ :=
  Rat.divInt (a.num * b.den - b.num * a.den) (a.den * b.den)

/-- Exact rational division, phrased on numerators and denominators so that
it evaluates inside the kernel (`Rat.div` is `@[irreducible]`); `qdiv_eq`
identifies it with `a / b` for nonzero divisors. -/
def qdiv (a b : ℚ) : ℚ :=
  Rat.divInt (a.num * b.den) (a.den * b.num)

/-- IEEE-style scalar as pandas holds it: a finite value, `±inf`, or `NaN`
(which also encodes a missing cell after an outer join). -/
inductive PFloat where
  | fin (q : ℚ)
  | pinf
  | ninf
  | nan
deriving DecidableEq, Repr

namespace PFloat

/-- Subtraction with IEEE propagation, as in `comp['Mean_ref'] - comp['Mean_res']`. -/
def psub : PFloat → PFloat → PFloat
  | nan, _ => nan
  | _, nan => nan
  | fin a, fin b => fin (qsub a b)
  | pinf, fin _ => pinf
  | fin _, pinf => ninf
  | ninf, fin _ => ninf
  | fin _, ninf => pinf
  | pinf, pinf => nan
  | pinf, ninf => pinf
  | ninf, pinf => ninf
  | ninf, ninf => nan

/-- Division with IEEE propagation, as in `... / comp['Mean_ref']`: a nonzero
finite value divided by zero gives a signed infinity, `0/0` gives `NaN`. -/
def pdiv : PFloat → PFloat → PFloat
  | nan, _ => nan
  | _, nan => nan
  | fin a, fin b =>
      if b = 0 then (if a = 0 then nan else if 0 < a then pinf else ninf)
      else fin (qdiv a b)
  | pinf, fin b => if 0 ≤ b then pinf else ninf
  | ninf, fin b => if 0 ≤ b then ninf else pinf
  | fin _, pinf => fin 0
  | fin _, ninf => fin 0
  | pinf, pinf => nan
  | pinf, ninf => nan
  | ninf, pinf => nan
  | ninf, ninf => nan

/-- IEEE `<` as pandas evaluates `Series < scalar`: any comparison with
`NaN` is `False`. -/
def plt : PFloat → PFloat → Bool
  | nan, _ => false
  | _, nan => false
  | fin a, fin b => decide (a < b)
  | ninf, fin _ => true
  | ninf, pinf => true
  | ninf, ninf => false
  | fin _, pinf => true
  | pinf, _ => false
  | fin _, ninf => false

/-- The mathematical strict order on non-`NaN` extended reals; `NaN` is
incomparable to everything. -/
inductive Lt : PFloat → PFloat → Prop where
  | fin_fin {a b : ℚ} : a < b → Lt (fin a) (fin b)
  | ninf_fin (q : ℚ) : Lt ninf (fin q)
  | ninf_pinf : Lt ninf pinf
  | fin_pinf (q : ℚ) : Lt (fin q) pinf

end PFloat

/-- A dataframe cell: the `Name` column holds strings, every other cell a
(possibly missing) float. -/
inductive Cell where
  | str (s : String)
  | num (x : PFloat)
deriving DecidableEq, Repr

/-- A dataframe: column labels plus rows of cells positionally aligned with
the labels. -/
structure Table where
  cols : List String
  rows : List (List Cell)
deriving DecidableEq, Repr

/-- Index of the first column with the given label. -/
def colIdx (c : String) : List String → Option Nat
  | [] => none
  | c' :: cs => if c' = c then some 0 else (colIdx c cs).map (· + 1)

/-- Cell of `row` in column `c` (`none` when the label is absent or the row
is too short). -/
def getCell (cols : List String) (row : List Cell) (c : String) : Option Cell :=
  (colIdx c cols).bind fun i => row[i]?

/-- `getCell` with a `NaN` default. -/
def getCellD (cols : List String) (row : List Cell) (c : String) : Cell :=
  (getCell cols row c).getD (Cell.num PFloat.nan)

/-- Numeric view of a cell: anything other than a numeric cell reads as `NaN`. -/
def getNum (cols : List String) (row : List Cell) (c : String) : PFloat :=
  match getCell cols row c with
  | some (Cell.num x) => x
  | _ => PFloat.nan

/-- The row's `Name` key (empty string when absent or non-string). -/
def rowName (cols : List String) (row : List Cell) : String :=
  match getCell cols row "Name" with
  | some (Cell.str s) => s
  | _ => ""

/-- The sequence of `Name` keys of a table's rows. -/
def namesOf (t : Table) : List String := t.rows.map (rowName t.cols)

/-- First row carrying the given `Name` key. -/
def findByName (t : Table) (n : String) : Option (List Cell) :=
  t.rows.find? fun row => rowName t.cols row == n

/-- The `Mean` cell of the (first) row keyed `n`, if such a row exists. -/
def lookupMean (t : Table) (n : String) : Option PFloat :=
  (findByName t n).map fun row => getNum t.cols row "Mean"

/-- Errors the script can die with: Python `IndexError` on `argv`, a
`pandas.read_csv` failure, a `KeyError` on a missing column, and the
`MergeError` of `validate='one_to_one'`. -/
inductive Err where
  | indexError
  | parseError
  | keyError
  | mergeError
deriving DecidableEq, Repr

/-- Column labels of `pd.merge(l, r, on='Name', how='outer', suffixes=('_ref', '_res'))`:
the left labels (non-key labels shared with the right side get `_ref`),
then the right non-key labels (those shared with the left side get `_res`).
Labels present on only one side keep their name. -/
def mergedCols (l r : Table) : List String :=
  (l.cols.map fun c => if c ≠ "Name" ∧ c ∈ r.cols then c ++ "_ref" else c)
    ++ ((r.cols.filter fun c => c ≠ "Name").map fun c =>
          if c ∈ l.cols then c ++ "_res" else c)

/-- Cells contributed by the right side for one output row: one cell per
right non-key column, read from the matched right row, `NaN`-filled when the
key had no match. -/
def rightDataCells (r : Table) (rrow? : Option (List Cell)) : List Cell :=
  (r.cols.filter fun c => c ≠ "Name").map fun c =>
    match rrow? with
    | some rrow => getCellD r.cols rrow c
    | none => Cell.num PFloat.nan

/-- Output row generated by a left row: its own cells, then the cells of the
right row with the same `Name` (if any). -/
def mergeRowLeft (l r : Table) (lrow : List Cell) : List Cell :=
  (l.cols.map fun c => getCellD l.cols lrow c)
    ++ rightDataCells r (findByName r (rowName l.cols lrow))

/-- Output row generated by a right row whose `Name` has no left match:
the key, `NaN` for every other left column, then its own data cells. -/
def mergeRowRight (l r : Table) (rrow : List Cell) : List Cell :=
  (l.cols.map fun c =>
      if c = "Name" then getCellD r.cols rrow "Name" else Cell.num PFloat.nan)
    ++ rightDataCells r (some rrow)

/-- Row list of the outer merge: every left row (matched where possible),
then the unmatched right rows. -/
def mergeRows (l r : Table) : List (List Cell) :=
  l.rows.map (mergeRowLeft l r)
    ++ ((r.rows.filter fun rrow => !((namesOf l).contains (rowName r.cols rrow))).map
          (mergeRowRight l r))

/-- The merged table (only used once validation passed). -/
def mergeTable (l r : Table) : Table :=
  ⟨mergedCols l r, mergeRows l r⟩

/-- `pd.merge(ref, res, on='Name', how='outer', validate='one_to_one', suffixes=('_ref', '_res'))`:
`KeyError` when a side lacks the `Name` column, `MergeError` when a side
repeats a `Name` key (the `one_to_one` validation), otherwise the outer
join. -/
def merge (l r : Table) : Except Err Table :=
  if "Name" ∈ l.cols then
    if "Name" ∈ r.cols then
      if (namesOf l).Nodup ∧ (namesOf r).Nodup then .ok (mergeTable l r)
      else .error .mergeError
    else .error .keyError
  else .error .keyError

/-- Threshold for the speedup or slowdown factor (`SIGNIFICANT = 0.2`,
written `mkRat 1 5` so that it evaluates inside the kernel). -/
def SIGNIFICANT : ℚ := mkRat 1 5

/-- The derived cell
`(comp['Mean_ref'] - comp['Mean_res']) / comp['Mean_ref']` of one row. -/
def speedupCell (cols : List String) (row : List Cell) : PFloat :=
  PFloat.pdiv
    (PFloat.psub (getNum cols row "Mean_ref") (getNum cols row "Mean_res"))
    (getNum cols row "Mean_ref")

/-- `comp[c] = series` on a dataframe: overwrite the column in place when the
label exists, otherwise append it on the right. -/
def setNumCol (t : Table) (c : String) (f : List Cell → PFloat) : Table :=
  if c ∈ t.cols then
    ⟨t.cols, t.rows.map fun row =>
      row.set ((colIdx c t.cols).getD 0) (Cell.num (f row))⟩
  else
    ⟨t.cols ++ [c], t.rows.map fun row => row ++ [Cell.num (f row)]⟩

/-- `comp['Speedup_rel'] = (comp['Mean_ref'] - comp['Mean_res']) / comp['Mean_ref']`:
reading a missing column raises `KeyError`, otherwise the derived column is
added. -/
def deriveTable (t : Table) : Except Err Table :=
  if "Mean_ref" ∈ t.cols then
    if "Mean_res" ∈ t.cols then
      .ok (setNumCol t "Speedup_rel" (speedupCell t.cols))
    else .error .keyError
  else .error .keyError

/-- Rows printed under `SLOWER`: `comp[comp['Speedup_rel'] < -SIGNIFICANT]`. -/
def slowerRows (t : Table) : List (List Cell) :=
  t.rows.filter fun row =>
    PFloat.plt (getNum t.cols row "Speedup_rel") (PFloat.fin (-SIGNIFICANT))

/-- Rows printed under `FASTER`: `comp[comp['Speedup_rel'] > SIGNIFICANT]`. -/
def fasterRows (t : Table) : List (List Cell) :=
  t.rows.filter fun row =>
    PFloat.plt (PFloat.fin SIGNIFICANT) (getNum t.cols row "Speedup_rel")

/-- `cols = ['Name', 'Mean_ref', 'Mean_res', 'Speedup_rel']`. -/
def reportCols : List String := ["Name", "Mean_ref", "Mean_res", "Speedup_rel"]

/-- `.loc[:, cols]` on one row: the cells of the selected labels, in order. -/
def locCols (cols : List String) (row : List Cell) : List Cell :=
  reportCols.map (getCellD cols row)

/-- What the script prints on success: the selected columns of the `SLOWER`
rows and of the `FASTER` rows. -/
structure Output where
  slower : List (List Cell)
  faster : List (List Cell)
deriving DecidableEq, Repr

/-- The two printed tables of the derived dataframe. -/
def report (t : Table) : Output :=
  ⟨(slowerRows t).map (locCols t.cols), (fasterRows t).map (locCols t.cols)⟩

/-- `argv[i]`: Python raises `IndexError` past the end of the list. -/
def getArg (argv : List String) (i : Nat) : Except Err String :=
  match argv[i]? with
  | some s => .ok s
  | none => .error .indexError

/-- `pd.read_csv(path)` against a model filesystem: `fs path = some t` means
the file exists, is readable and parses into the table `t` (its header
row is whatever the file holds — presence of particular columns is not
checked); `fs path = none` means the read fails (missing, unreadable or
malformed file). -/
def read_csv (fs : String → Option Table) (path : String) : Except Err Table :=
  match fs path with
  | some t => .ok t
  | none => .error .parseError

/-- The whole script: index `argv`, read the two files, merge, derive
`Speedup_rel`, and report.  Every failure point precedes the first `print`
in the source, so an `Except.error` result means the process dies with a
non-zero exit status having printed nothing. -/
def run (fs : String → Option Table) (argv : List String) : Except Err Output := do
  let p1 ← getArg argv 1
  let ref ← read_csv fs p1
  let p2 ← getArg argv 2
  let res ← read_csv fs p2
  let comp ← merge ref res
  let comp2 ← deriveTable comp
  .ok (report comp2)

/-! ## Well-formed benchmark inputs

The spec's input format: a header `Name, Mean` and rows holding a string
key and a float. -/

/-- A row of the documented CSV shape: a string `Name` and a float `Mean`. -/
def isBenchRow : List Cell → Bool
  | [Cell.str _, Cell.num _] => true
  | _ => false

/-- A table of the documented CSV shape. -/
def BenchTable (t : Table) : Prop :=
  t.cols = ["Name", "Mean"] ∧ ∀ row ∈ t.rows, isBenchRow row

instance : DecidablePred BenchTable := fun t => by
  unfold BenchTable; infer_instance

/-- `Speedup_rel` of the (first) row keyed `n` (`NaN` when the key or the
column is absent). -/
def speedupOfName (t : Table) (n : String) : PFloat :=
  getNum t.cols ((findByName t n).getD []) "Speedup_rel"

/-! ## Concrete inputs used by scenario theorems and counterexamples -/

/-- Reference dataset of the spec's worked scenario. -/
def refTableC8 : Table :=
  ⟨["Name", "Mean"],
   [[Cell.str "sort", Cell.num (PFloat.fin 10)],
    [Cell.str "search", Cell.num (PFloat.fin 5)]]⟩

/-- Result dataset of the spec's worked scenario. -/
def resTableC8 : Table :=
  ⟨["Name", "Mean"],
   [[Cell.str "sort", Cell.num (PFloat.fin 7)],
    [Cell.str "search", Cell.num (PFloat.fin (mkRat 26 5))]]⟩

/-- Filesystem holding the two scenario files. -/
def fsC8 : String → Option Table := fun p =>
  if p = "ref.csv" then some refTableC8
  else if p = "res.csv" then some resTableC8
  else none

/-- Expected output of the worked scenario. -/
def outC8 : Output :=
  ⟨[],
   [[Cell.str "sort", Cell.num (PFloat.fin 10), Cell.num (PFloat.fin 7),
     Cell.num (PFloat.fin (mkRat 3 10))]]⟩

/-- The joined-and-derived dataframe of the worked scenario. -/
def compC8 : Table :=
  ⟨["Name", "Mean_ref", "Mean_res", "Speedup_rel"],
   [[Cell.str "sort", Cell.num (PFloat.fin 10), Cell.num (PFloat.fin 7),
     Cell.num (PFloat.fin (mkRat 3 10))],
    [Cell.str "search", Cell.num (PFloat.fin 5), Cell.num (PFloat.fin (mkRat 26 5)),
     Cell.num (PFloat.fin (mkRat (-1) 25))]]⟩

/-- Reference dataset with a zero `Mean`. -/
def tZeroRef : Table :=
  ⟨["Name", "Mean"], [[Cell.str "X", Cell.num (PFloat.fin 0)]]⟩

/-- Result dataset with a positive `Mean` for the same key. -/
def tZeroRes : Table :=
  ⟨["Name", "Mean"], [[Cell.str "X", Cell.num (PFloat.fin 1)]]⟩

/-- Filesystem holding the zero-`Mean_ref` pair. -/
def fsZero : String → Option Table := fun p =>
  if p = "a.csv" then some tZeroRef
  else if p = "b.csv" then some tZeroRes
  else none

/-- The joined and selected row of the zero-`Mean_ref` pair. -/
def rowZero : List Cell :=
  [Cell.str "X", Cell.num (PFloat.fin 0), Cell.num (PFloat.fin 1),
   Cell.num PFloat.ninf]

/-- A small already-joined dataframe (used to instantiate the derive-step
theorems). -/
def tJoined : Table :=
  ⟨["Name", "Mean_ref", "Mean_res"],
   [[Cell.str "a", Cell.num (PFloat.fin 10), Cell.num (PFloat.fin 4)]]⟩

/-- An already-joined dataframe with zero reference means: one row divides
`-2` by zero, the other `0` by zero. -/
def tZeroJoined : Table :=
  ⟨["Name", "Mean_ref", "Mean_res"],
   [[Cell.str "z", Cell.num (PFloat.fin 0), Cell.num (PFloat.fin 2)],
    [Cell.str "w", Cell.num (PFloat.fin 0), Cell.num (PFloat.fin 0)]]⟩

/-- A parseable file that lacks the `Mean` column. -/
def tNoMean : Table := ⟨["Name"], [[Cell.str "x"]]⟩

/-- A file in which the key `X` occurs twice. -/
def tDupName : Table :=
  ⟨["Name", "Mean"],
   [[Cell.str "X", Cell.num (PFloat.fin 1)],
    [Cell.str "X", Cell.num (PFloat.fin 2)]]⟩

/-- Filesystem pairing the duplicate-key file with a well-formed one. -/
def fsDup : String → Option Table := fun p =>
  if p = "dup.csv" then some tDupName
  else if p = "ok.csv" then some tZeroRes
  else none

/-- Filesystem pairing a well-formed file with the `Mean`-less one. -/
def fsNoMean : String → Option Table := fun p =>
  if p = "good.csv" then some tZeroRes
  else if p = "bad.csv" then some tNoMean
  else none

/-- Equality on script results is decidable (used only to let concrete
scenarios be settled by `decide`). -/
instance {ε α : Type} [DecidableEq ε] [DecidableEq α] : DecidableEq (Except ε α) :=
  fun a b =>
    match a, b with
    | .error e, .error f => decidable_of_iff (e = f) (by simp)
    | .ok x, .ok y => decidable_of_iff (x = y) (by simp)
    | .error _, .ok _ => isFalse (by simp)
    | .ok _, .error _ => isFalse (by simp)

/-! ## Generic lookup lemmas -/

theorem qsub_eq (a b : ℚ) : qsub a b = a - b := by
  unfold qsub
  conv_rhs => rw [← Rat.num_divInt_den a, ← Rat.num_divInt_den b]
  rw [Rat.divInt_sub_divInt _ _ (by exact_mod_cast a.den_nz) (by exact_mod_cast b.den_nz)]

theorem qdiv_eq (a b : ℚ) : qdiv a b = a / b := (Rat.div_def' a b).symm

theorem PFloat.plt_iff_Lt (x y : PFloat) : PFloat.plt x y = true ↔ PFloat.Lt x y := by
  cases x <;> cases y <;>
    simp [PFloat.plt] <;>
    first
    | exact fun h => nomatch h
    | constructor
  · exact fun h => PFloat.Lt.fin_fin h
  · rintro (h | h | h | h); assumption

theorem benchRow_shape (row : List Cell) (h : isBenchRow row = true) :
    ∃ n m, row = [Cell.str n, Cell.num m] := by
  rcases row with _ | ⟨c, row⟩
  · simp [isBenchRow] at h
  rcases c with s | x
  · rcases row with _ | ⟨c2, row⟩
    · simp [isBenchRow] at h
    rcases c2 with s2 | x2
    · simp [isBenchRow] at h
    · rcases row with _ | ⟨c3, row⟩
      · exact ⟨s, x2, rfl⟩
      · simp [isBenchRow] at h
  · simp [isBenchRow] at h

theorem colIdx_lt_length {c : String} {cols : List String} {i : Nat}
    (h : colIdx c cols = some i) : i < cols.length := by
  induction cols generalizing i with
  | nil => simp [colIdx] at h
  | cons c' cs ih =>
    by_cases hc : c' = c
    · simp [colIdx, hc] at h
      simp only [List.length_cons]
      omega
    · simp [colIdx, hc] at h
      rcases h with ⟨j, hj, rfl⟩
      have := ih hj
      simp only [List.length_cons]
      omega

theorem colIdx_append_left {c : String} {cols : List String}
    (h : c ∈ cols) (cs : List String) :
    colIdx c (cols ++ cs) = colIdx c cols := by
  induction cols with
  | nil => cases h
  | cons c' cl ih =>
    by_cases hc : c' = c
    · simp [colIdx, hc]
    · have hm : c ∈ cl := by
        rcases List.mem_cons.mp h with h1 | h1
        · exact absurd h1.symm hc
        · exact h1
      simp [colIdx, hc, ih hm]

theorem colIdx_append_self {c : String} {cols : List String}
    (h : c ∉ cols) : colIdx c (cols ++ [c]) = some cols.length := by
  induction cols with
  | nil => simp [colIdx]
  | cons c' cl ih =>
    have hc : c' ≠ c := fun hcc => h (hcc ▸ List.mem_cons_self c' cl)
    have hm : c ∉ cl := fun hcl => h (List.mem_cons_of_mem c' hcl)
    simp [colIdx, hc, ih hm]

theorem colIdx_eq_none {c : String} {cols : List String} (h : c ∉ cols) :
    colIdx c cols = none := by
  induction cols with
  | nil => rfl
  | cons c' cs ih =>
    have hc : c' ≠ c := fun hcc => h (hcc ▸ List.mem_cons_self c' cs)
    simp [colIdx, hc, ih fun hm => h (List.mem_cons_of_mem c' hm)]

/-- A lookup that produced a finite value can only come from a present
column. -/
theorem mem_of_getNum_fin {cols : List String} {row : List Cell} {c : String}
    {a : ℚ} (h : getNum cols row c = PFloat.fin a) : c ∈ cols := by
  by_contra hc
  simp [getNum, getCell, colIdx_eq_none hc] at h

/-- Looking up a freshly appended column reads the appended cell. -/
theorem getCell_append_self {c : String} {cols : List String}
    (h : c ∉ cols) {row : List Cell} (hlen : row.length = cols.length)
    (x : Cell) : getCell (cols ++ [c]) (row ++ [x]) c = some x := by
  simp [getCell, colIdx_append_self h, ← hlen]

/-- Appending a column does not disturb lookups of existing columns. -/
theorem getCell_append_other {c : String} {cols : List String}
    (h : c ∈ cols) (cs : List String) {row : List Cell}
    (hlen : cols.length ≤ row.length) (ext : List Cell) :
    getCell (cols ++ cs) (row ++ ext) c = getCell cols row c := by
  unfold getCell
  rw [colIdx_append_left h cs]
  cases hidx : colIdx c cols with
  | none => rfl
  | some i =>
    have hi : i < row.length := lt_of_lt_of_le (colIdx_lt_length hidx) hlen
    simp [List.getElem?_append_left hi]

/-! ## Pipeline evaluation lemmas -/

/-- When both mean columns are present and no `Speedup_rel` column exists
yet, the derive step appends the computed column on the right. -/
theorem deriveTable_eq_append (t : Table) (hmr : "Mean_ref" ∈ t.cols)
    (hms : "Mean_res" ∈ t.cols) (hs : "Speedup_rel" ∉ t.cols) :
    deriveTable t = .ok ⟨t.cols ++ ["Speedup_rel"],
      t.rows.map fun r => r ++ [Cell.num (speedupCell t.cols r)]⟩ := by
  unfold deriveTable setNumCol
  rw [if_pos hmr, if_pos hms, if_neg hs]

/-- Reading the appended `Speedup_rel` column of a derived row. -/
theorem getNum_speedup_append {t : Table} (hs : "Speedup_rel" ∉ t.cols)
    {row : List Cell} (hlen : row.length = t.cols.length) (x : PFloat) :
    getNum (t.cols ++ ["Speedup_rel"]) (row ++ [Cell.num x]) "Speedup_rel" = x := by
  unfold getNum
  rw [getCell_append_self hs hlen]

/-- With at least two positional arguments the script is the pipeline
`read, read, merge, derive, report` on those two paths. -/
theorem run_eval (fs : String → Option Table) (prog p1 p2 : String)
    (rest : List String) :
    run fs (prog :: p1 :: p2 :: rest)
      = Except.bind (read_csv fs p1) fun ref =>
        Except.bind (read_csv fs p2) fun res =>
        Except.bind (merge ref res) fun comp =>
        Except.bind (deriveTable comp) fun comp2 =>
          Except.ok (report comp2) := by
  unfold run getArg
  simp only [List.getElem?_cons_succ, List.getElem?_cons_zero]
  rfl

/-- When exactly one of the two files carries a `Mean` column, the join
succeeds but leaves the column unsuffixed, and the run dies at the derive
step with a `KeyError`. -/
theorem run_missing_mean_aux (fs : String → Option Table)
    (prog p1 p2 : String) (rest : List String) (l r : Table)
    (h1 : fs p1 = some l) (h2 : fs p2 = some r)
    (hnl : (namesOf l).Nodup) (hnr : (namesOf r).Nodup)
    (hcase : (l.cols = ["Name", "Mean"] ∧ r.cols = ["Name"])
           ∨ (l.cols = ["Name"] ∧ r.cols = ["Name", "Mean"])) :
    merge l r = .ok (mergeTable l r) ∧
    (mergeTable l r).cols = ["Name", "Mean"] ∧
    deriveTable (mergeTable l r) = .error .keyError ∧
    run fs (prog :: p1 :: p2 :: rest) = .error .keyError := by
  have hread1 : read_csv fs p1 = .ok l := by unfold read_csv; rw [h1]
  have hread2 : read_csv fs p2 = .ok r := by unfold read_csv; rw [h2]
  obtain ⟨hl, hr⟩ | ⟨hl, hr⟩ := hcase <;>
  · have hn1 : "Name" ∈ l.cols := by rw [hl]; decide
    have hn2 : "Name" ∈ r.cols := by rw [hr]; decide
    have hm : merge l r = .ok (mergeTable l r) := by
      unfold merge
      rw [if_pos hn1, if_pos hn2, if_pos ⟨hnl, hnr⟩]
    have hc : (mergeTable l r).cols = ["Name", "Mean"] := by
      show mergedCols l r = _
      unfold mergedCols
      rw [hl, hr]
      decide
    have hd : deriveTable (mergeTable l r) = .error .keyError := by
      unfold deriveTable
      rw [hc, if_neg (by decide)]
    refine ⟨hm, hc, hd, ?_⟩
    rw [run_eval, hread1, hread2]
    show Except.bind (merge l r) _ = _
    rw [hm]
    show Except.bind (deriveTable (mergeTable l r)) _ = _
    rw [hd]
    rfl

/-! ## Generic list lemmas -/

theorem map_filter_comp {α β : Type} (f : α → β) (q : β → Bool) (xs : List α) :
    (xs.filter fun x => q (f x)).map f = (xs.map f).filter q := by
  induction xs with
  | nil => rfl
  | cons x xs ih =>
    by_cases h : q (f x) <;> simp [List.filter_cons, h, ih]

theorem length_filter_name (cols : List String) (rows : List (List Cell)) (n : String) :
    (rows.filter fun row => rowName cols row == n).length
      = (rows.map (rowName cols)).count n := by
  induction rows with
  | nil => rfl
  | cons row rows ih =>
    by_cases h : rowName cols row = n <;>
      simp [List.filter_cons, h, List.count_cons, ih]

theorem find?_eq_some_of_nodup {α β : Type} [DecidableEq β] (f : α → β)
    (xs : List α) (hn : (xs.map f).Nodup) (a : α) (ha : a ∈ xs)
    (n : β) (hfa : f a = n) : xs.find? (fun x => f x == n) = some a := by
  induction xs with
  | nil => cases ha
  | cons x xs ih =>
    rcases List.mem_cons.mp ha with rfl | hmem
    · simp [List.find?_cons, hfa]
    · have hx : f x ≠ n := by
        intro hfx
        have : f a ∈ xs.map f := List.mem_map_of_mem f hmem
        rw [hfa, ← hfx] at this
        exact (List.nodup_cons.mp hn).1 this
      have hbx : (f x == n) = false := by simp [hx]
      simp only [List.find?_cons, hbx]
      exact ih (List.nodup_cons.mp hn).2 hmem

theorem find?_exists_of_mem {α β : Type} [DecidableEq β] (f : α → β)
    (xs : List α) (n : β) (hm : n ∈ xs.map f) :
    ∃ a, xs.find? (fun x => f x == n) = some a ∧ a ∈ xs ∧ f a = n := by
  induction xs with
  | nil => cases hm
  | cons x xs ih =>
    by_cases hx : f x = n
    · exact ⟨x, by simp [List.find?_cons, hx], List.mem_cons_self x xs, hx⟩
    · have hm' : n ∈ xs.map f := by
        rcases List.mem_cons.mp hm with h | h
        · exact absurd h.symm hx
        · exact h
      rcases ih hm' with ⟨a, hfind, hmem, hfa⟩
      refine ⟨a, ?_, List.mem_cons_of_mem x hmem, hfa⟩
      have hbx : (f x == n) = false := by simp [hx]
      simp only [List.find?_cons, hbx]
      exact hfind

theorem find?_eq_none_of_not_mem {α β : Type} [DecidableEq β] (f : α → β)
    (xs : List α) (n : β) (hm : n ∉ xs.map f) :
    xs.find? (fun x => f x == n) = none := by
  rw [List.find?_eq_none]
  intro a ha
  simp only [beq_iff_eq]
  intro hfa
  exact hm (hfa ▸ List.mem_map_of_mem f ha)

/-! ## The outer join on well-formed benchmark tables -/

theorem bench_cols_name {t : Table} (ht : BenchTable t) : "Name" ∈ t.cols := by
  rw [ht.1]
  exact List.mem_cons_self _ _

theorem mergedCols_bench {l r : Table} (hl1 : l.cols = ["Name", "Mean"])
    (hr1 : r.cols = ["Name", "Mean"]) :
    (mergeTable l r).cols = ["Name", "Mean_ref", "Mean_res"] := by
  show mergedCols l r = _
  unfold mergedCols
  rw [hl1, hr1]
  decide

theorem rightDataCells_none_bench {r : Table} (hr1 : r.cols = ["Name", "Mean"]) :
    rightDataCells r none = [Cell.num PFloat.nan] := by
  unfold rightDataCells
  rw [hr1]
  rfl

theorem rightDataCells_some_bench {r : Table} (hr1 : r.cols = ["Name", "Mean"])
    (rrow : List Cell) :
    rightDataCells r (some rrow) = [getCellD r.cols rrow "Mean"] := by
  unfold rightDataCells
  rw [hr1]
  rfl

theorem findByName_shape {t : Table} (ht : BenchTable t) {n : String}
    {rrow : List Cell} (hf : findByName t n = some rrow) :
    ∃ m, rrow = [Cell.str n, Cell.num m] := by
  have hf' : t.rows.find? (fun row => rowName t.cols row == n) = some rrow := hf
  have hmem : rrow ∈ t.rows := List.mem_of_find?_eq_some hf'
  have hpred := List.find?_some hf'
  rcases benchRow_shape rrow (ht.2 rrow hmem) with ⟨n', m, rfl⟩
  have hname : rowName t.cols [Cell.str n', Cell.num m] = n' := by rw [ht.1]; rfl
  rw [hname] at hpred
  have : n' = n := by simpa using hpred
  subst this
  exact ⟨m, rfl⟩

theorem lookupMean_bench {r : Table} (hr : BenchTable r) (n : String) :
    rightDataCells r (findByName r n)
      = [Cell.num ((lookupMean r n).getD PFloat.nan)] := by
  cases hf : findByName r n with
  | none =>
    rw [rightDataCells_none_bench hr.1]
    unfold lookupMean
    rw [hf]
    rfl
  | some rrow =>
    rcases findByName_shape hr hf with ⟨m, rfl⟩
    rw [rightDataCells_some_bench hr.1]
    unfold lookupMean
    rw [hf, hr.1]
    rfl

theorem mergeRowLeft_bench {l r : Table} (hl : BenchTable l) (hr : BenchTable r)
    (n : String) (m : PFloat) :
    mergeRowLeft l r [Cell.str n, Cell.num m]
      = [Cell.str n, Cell.num m, Cell.num ((lookupMean r n).getD PFloat.nan)] := by
  unfold mergeRowLeft
  rw [hl.1]
  rw [show rowName ["Name", "Mean"] [Cell.str n, Cell.num m] = n from rfl]
  rw [lookupMean_bench hr n]
  rfl

theorem mergeRowRight_bench {l r : Table} (hl : BenchTable l) (hr : BenchTable r)
    (n : String) (m : PFloat) :
    mergeRowRight l r [Cell.str n, Cell.num m]
      = [Cell.str n, Cell.num PFloat.nan, Cell.num m] := by
  unfold mergeRowRight
  rw [hl.1, rightDataCells_some_bench hr.1, hr.1]
  rfl

theorem rowName_merged {l r : Table} (hl1 : l.cols = ["Name", "Mean"])
    (hr1 : r.cols = ["Name", "Mean"]) (n : String) (x y : PFloat) :
    rowName (mergeTable l r).cols [Cell.str n, Cell.num x, Cell.num y] = n := by
  rw [mergedCols_bench hl1 hr1]
  rfl

theorem namesOf_mergeTable {l r : Table} (hl : BenchTable l) (hr : BenchTable r) :
    namesOf (mergeTable l r)
      = namesOf l ++ (namesOf r).filter fun n => !((namesOf l).contains n) := by
  show (mergeTable l r).rows.map (rowName (mergeTable l r).cols) = _
  have hrows : (mergeTable l r).rows
      = l.rows.map (mergeRowLeft l r)
        ++ ((r.rows.filter fun rrow =>
              !((namesOf l).contains (rowName r.cols rrow))).map
            (mergeRowRight l r)) := rfl
  rw [hrows, List.map_append, List.map_map, List.map_map]
  congr 1
  · apply List.map_congr_left
    intro lrow hmem
    rcases benchRow_shape lrow (hl.2 lrow hmem) with ⟨n, m, rfl⟩
    simp only [Function.comp_apply]
    rw [mergeRowLeft_bench hl hr, rowName_merged hl.1 hr.1, hl.1]
    rfl
  · have step1 : ∀ rrow ∈ (r.rows.filter fun rrow =>
        !((namesOf l).contains (rowName r.cols rrow))),
        (rowName (mergeTable l r).cols ∘ mergeRowRight l r) rrow
          = rowName r.cols rrow := by
      intro rrow hmem
      rcases benchRow_shape rrow (hr.2 rrow (List.mem_of_mem_filter hmem)) with ⟨n, m, rfl⟩
      simp only [Function.comp_apply]
      rw [mergeRowRight_bench hl hr, rowName_merged hl.1 hr.1, hr.1]
      rfl
    rw [List.map_congr_left step1]
    exact map_filter_comp (rowName r.cols) (fun x => !((namesOf l).contains x)) r.rows

theorem namesOf_mergeTable_nodup {l r : Table} (hl : BenchTable l)
    (hr : BenchTable r) (hnl : (namesOf l).Nodup) (hnr : (namesOf r).Nodup) :
    (namesOf (mergeTable l r)).Nodup := by
  rw [namesOf_mergeTable hl hr]
  refine List.Nodup.append hnl (hnr.filter _) ?_
  intro n hn1 hn2
  have hpred := List.of_mem_filter hn2
  simp at hpred
  exact hpred hn1

theorem count_merged_names {l r : Table} (hl : BenchTable l) (hr : BenchTable r)
    (hnl : (namesOf l).Nodup) (hnr : (namesOf r).Nodup)
    (n : String) (hn : n ∈ namesOf l ∨ n ∈ namesOf r) :
    ((mergeTable l r).rows.filter fun row =>
       rowName (mergeTable l r).cols row == n).length = 1 := by
  rw [length_filter_name]
  have hnames : (mergeTable l r).rows.map (rowName (mergeTable l r).cols)
      = namesOf l ++ (namesOf r).filter fun x => !((namesOf l).contains x) :=
    namesOf_mergeTable hl hr
  rw [hnames, List.count_append]
  by_cases hmem : n ∈ namesOf l
  · have hzero : n ∉ (namesOf r).filter fun x => !((namesOf l).contains x) := by
      intro hc
      have hp := List.of_mem_filter hc
      simp at hp
      exact hp hmem
    rw [List.count_eq_one_of_mem hnl hmem, List.count_eq_zero.mpr hzero]
  · have hmr : n ∈ namesOf r := hn.resolve_left hmem
    have hmf : n ∈ (namesOf r).filter fun x => !((namesOf l).contains x) :=
      List.mem_filter.mpr ⟨hmr, by simp [hmem]⟩
    rw [List.count_eq_zero.mpr hmem, List.count_eq_one_of_mem (hnr.filter _) hmf]

theorem merge_ok_bench {l r : Table} (hl : BenchTable l) (hr : BenchTable r)
    (hnl : (namesOf l).Nodup) (hnr : (namesOf r).Nodup) :
    merge l r = .ok (mergeTable l r) := by
  unfold merge
  rw [if_pos (bench_cols_name hl), if_pos (bench_cols_name hr), if_pos ⟨hnl, hnr⟩]

theorem getNum_merged_ref {l r : Table} (hl1 : l.cols = ["Name", "Mean"])
    (hr1 : r.cols = ["Name", "Mean"]) (n : String) (x y : PFloat) :
    getNum (mergeTable l r).cols [Cell.str n, Cell.num x, Cell.num y] "Mean_ref" = x := by
  rw [mergedCols_bench hl1 hr1]
  rfl

theorem getNum_merged_res {l r : Table} (hl1 : l.cols = ["Name", "Mean"])
    (hr1 : r.cols = ["Name", "Mean"]) (n : String) (x y : PFloat) :
    getNum (mergeTable l r).cols [Cell.str n, Cell.num x, Cell.num y] "Mean_res" = y := by
  rw [mergedCols_bench hl1 hr1]
  rfl

theorem PFloat.psub_nan_right (x : PFloat) : PFloat.psub x PFloat.nan = PFloat.nan := by
  cases x <;> rfl

theorem PFloat.psub_nan_left (x : PFloat) : PFloat.psub PFloat.nan x = PFloat.nan := by
  cases x <;> rfl

theorem PFloat.pdiv_nan_left (x : PFloat) : PFloat.pdiv PFloat.nan x = PFloat.nan := by
  cases x <;> rfl

/-- Row selection keeps the `Name` cell in front, so the printed row carries
the same key as the dataframe row it came from. -/
theorem rowName_locCols (cols : List String) (row : List Cell) :
    rowName reportCols (locCols cols row) = rowName cols row := by
  show rowName reportCols
      [getCellD cols row "Name", getCellD cols row "Mean_ref",
       getCellD cols row "Mean_res", getCellD cols row "Speedup_rel"]
    = rowName cols row
  unfold rowName getCellD
  cases hg : getCell cols row "Name" with
  | none => rfl
  | some c => cases c <;> rfl

theorem mergeTable_rows_shape {l r : Table} (hl : BenchTable l) (hr : BenchTable r) :
    ∀ row ∈ (mergeTable l r).rows,
      ∃ n x y, row = [Cell.str n, Cell.num x, Cell.num y] := by
  intro row hrow
  have hrow' : row ∈ l.rows.map (mergeRowLeft l r)
      ++ ((r.rows.filter fun rrow =>
            !((namesOf l).contains (rowName r.cols rrow))).map
          (mergeRowRight l r)) := hrow
  rcases List.mem_append.mp hrow' with hleft | hright
  · rcases List.mem_map.mp hleft with ⟨lrow, hlmem, rfl⟩
    rcases benchRow_shape lrow (hl.2 lrow hlmem) with ⟨n, m, rfl⟩
    rw [mergeRowLeft_bench hl hr]
    exact ⟨n, m, _, rfl⟩
  · rcases List.mem_map.mp hright with ⟨rrow, hrmem, rfl⟩
    rcases benchRow_shape rrow (hr.2 rrow (List.mem_of_mem_filter hrmem)) with ⟨n, m, rfl⟩
    rw [mergeRowRight_bench hl hr]
    exact ⟨n, PFloat.nan, m, rfl⟩

/-! ## Claims -/

/-- **C8**: on the spec's worked scenario (reference: sort 10, search 5;
result: sort 7, search 5.2) the program derives `Speedup_rel = 0.3` for
`sort`, which is printed in the `FASTER` group and nowhere else, and
`Speedup_rel = -0.04` for `search`, which is printed in neither group:
the whole output consists of an empty `SLOWER` table and a `FASTER` table
holding exactly the `sort` row. -/
theorem claim_C8_scenario :
    run fsC8 ["compare", "ref.csv", "res.csv"] = .ok outC8 ∧
    deriveTable (mergeTable refTableC8 resTableC8) = .ok compC8 ∧
    speedupOfName compC8 "sort" = .fin (mkRat 3 10) ∧
    speedupOfName compC8 "search" = .fin (mkRat (-1) 25) ∧
    (mkRat 3 10 : ℚ) = (10 - 7) / 10 ∧
    (mkRat (-1) 25 : ℚ) = (5 - mkRat 26 5) / 5 ∧
    outC8.slower = [] ∧
    (∀ x ∈ outC8.faster, rowName reportCols x = "sort") :=
  ⟨by decide, by decide, by decide, by decide,
   by rw [Rat.mkRat_eq_divInt, Rat.divInt_eq_div]; norm_num,
   by rw [Rat.mkRat_eq_divInt, Rat.divInt_eq_div, Rat.mkRat_eq_divInt, Rat.divInt_eq_div]
      norm_num,
   by decide, by decide⟩

/-- **C3** is false as stated: a joined row whose `Mean_ref` is zero does
not always stay out of the two groups.  Joining `{Name: X, Mean: 0}` with
`{Name: X, Mean: 1}` derives `Speedup_rel = -inf` (pandas IEEE division),
`-inf < -SIGNIFICANT` holds, and the row is printed in the `SLOWER`
group. -/
theorem claim_C3_counterexample :
    run fsZero ["compare", "a.csv", "b.csv"] = .ok ⟨[rowZero], []⟩ ∧
    getNum reportCols rowZero "Mean_ref" = PFloat.fin 0 ∧
    getNum reportCols rowZero "Speedup_rel" = PFloat.ninf ∧
    rowName reportCols rowZero = "X" :=
  ⟨by decide, by decide, by decide, by decide⟩

/-- **C6** is false as stated: a file lacking the required `Mean` column is
not rejected at load time.  `read_csv` parses it successfully (no
`ParseError`); the run still dies, but later, with the `KeyError` raised
when the derive step reads the absent `Mean_ref` column. -/
theorem claim_C6_counterexample :
    read_csv fsNoMean "bad.csv" = .ok tNoMean ∧
    "Mean" ∉ tNoMean.cols ∧
    run fsNoMean ["compare", "good.csv", "bad.csv"] = .error .keyError :=
  ⟨by decide, by decide, by decide⟩

/-- **C7** is false as stated: extra command-line arguments are not a
`UsageError`.  With three positional arguments (four `argv` entries) the
script only reads `argv[1]` and `argv[2]`, ignores the rest, and succeeds
with exit status 0 and normal output. -/
theorem claim_C7_counterexample :
    run fsC8 ["compare", "ref.csv", "res.csv", "extra"] = .ok outC8 ∧
    ["compare", "ref.csv", "res.csv", "extra"].length = 4 :=
  ⟨by decide, by decide⟩

/-- **C1**: for every joined row in which both means are present (finite)
and `Mean_ref` is nonzero, the derive step computes
`Speedup_rel = (Mean_ref - Mean_res) / Mean_ref` exactly. -/
theorem claim_C1_speedup_formula
    (t : Table) (row : List Cell) (hmem : row ∈ t.rows)
    (hlen : row.length = t.cols.length)
    (hs : "Speedup_rel" ∉ t.cols)
    (a b : ℚ)
    (ha : getNum t.cols row "Mean_ref" = PFloat.fin a)
    (hb : getNum t.cols row "Mean_res" = PFloat.fin b)
    (h0 : a ≠ 0) :
    ∃ t', deriveTable t = .ok t' ∧
      row ++ [Cell.num (PFloat.fin ((a - b) / a))] ∈ t'.rows ∧
      getNum t'.cols (row ++ [Cell.num (PFloat.fin ((a - b) / a))]) "Speedup_rel"
        = PFloat.fin ((a - b) / a) := by
  have hmr : "Mean_ref" ∈ t.cols := mem_of_getNum_fin ha
  have hms : "Mean_res" ∈ t.cols := mem_of_getNum_fin hb
  have hspeed : speedupCell t.cols row = PFloat.fin ((a - b) / a) := by
    unfold speedupCell
    rw [ha, hb]
    have hred : PFloat.pdiv (PFloat.psub (PFloat.fin a) (PFloat.fin b)) (PFloat.fin a)
        = if a = 0 then
            (if qsub a b = 0 then PFloat.nan
             else if 0 < qsub a b then PFloat.pinf else PFloat.ninf)
          else PFloat.fin (qdiv (qsub a b) a) := rfl
    rw [hred, if_neg h0, qsub_eq, qdiv_eq]
  have hd : deriveTable t = .ok (setNumCol t "Speedup_rel" (speedupCell t.cols)) := by
    unfold deriveTable
    rw [if_pos hmr, if_pos hms]
  have hset : setNumCol t "Speedup_rel" (speedupCell t.cols)
      = ⟨t.cols ++ ["Speedup_rel"],
         t.rows.map fun r => r ++ [Cell.num (speedupCell t.cols r)]⟩ := by
    unfold setNumCol
    rw [if_neg hs]
  refine ⟨_, hd, ?_, ?_⟩
  · rw [hset]
    have hmm : row ++ [Cell.num (speedupCell t.cols row)]
        ∈ t.rows.map fun r => r ++ [Cell.num (speedupCell t.cols r)] :=
      List.mem_map_of_mem _ hmem
    rw [hspeed] at hmm
    exact hmm
  · rw [hset]
    show getNum (t.cols ++ ["Speedup_rel"]) _ "Speedup_rel" = _
    unfold getNum
    rw [getCell_append_self hs hlen]

/-- Instance of `claim_C1_speedup_formula` on a one-row joined table with
`Mean_ref = 10`, `Mean_res = 4`. -/
theorem claim_C1_speedup_formula_witness :
    ∃ t', deriveTable tJoined = .ok t' ∧
      [Cell.str "a", Cell.num (PFloat.fin 10), Cell.num (PFloat.fin 4),
        Cell.num (PFloat.fin ((10 - 4) / 10))] ∈ t'.rows ∧
      getNum t'.cols [Cell.str "a", Cell.num (PFloat.fin 10), Cell.num (PFloat.fin 4),
        Cell.num (PFloat.fin ((10 - 4) / 10))] "Speedup_rel"
        = PFloat.fin ((10 - 4) / 10) :=
  claim_C1_speedup_formula tJoined
    [Cell.str "a", Cell.num (PFloat.fin 10), Cell.num (PFloat.fin 4)]
    (by decide) (by decide) (by decide) 10 4 (by decide) (by decide) (by decide)

/-- **C2**: a row is printed in the `SLOWER` group exactly when its
`Speedup_rel` is strictly below `-SIGNIFICANT` in the IEEE order, and in
the `FASTER` group exactly when it is strictly above `SIGNIFICANT`
(`NaN` satisfies neither; `-inf` satisfies the first, `+inf` the second). -/
theorem claim_C2_threshold (t : Table) (x : List Cell) :
    (x ∈ (report t).slower ↔ ∃ row, row ∈ t.rows ∧
        PFloat.Lt (getNum t.cols row "Speedup_rel") (PFloat.fin (-SIGNIFICANT)) ∧
        x = locCols t.cols row) ∧
    (x ∈ (report t).faster ↔ ∃ row, row ∈ t.rows ∧
        PFloat.Lt (PFloat.fin SIGNIFICANT) (getNum t.cols row "Speedup_rel") ∧
        x = locCols t.cols row) := by
  constructor <;>
    · simp only [report, slowerRows, fasterRows, List.mem_map, List.mem_filter,
        ← PFloat.plt_iff_Lt]
      constructor
      · rintro ⟨row, ⟨hmem, hplt⟩, rfl⟩
        exact ⟨row, hmem, hplt, rfl⟩
      · rintro ⟨row, hmem, hplt, rfl⟩
        exact ⟨row, ⟨hmem, hplt⟩, rfl⟩

/-- **C5**: a duplicate `Name` in either input makes the one-to-one
validation of the merge fail with a `MergeError`; the merge precedes every
`print`, so the run produces no output and exits non-zero. -/
theorem claim_C5_duplicate_name
    (fs : String → Option Table) (prog p1 p2 : String) (rest : List String)
    (l r : Table) (h1 : fs p1 = some l) (h2 : fs p2 = some r)
    (hn1 : "Name" ∈ l.cols) (hn2 : "Name" ∈ r.cols)
    (hdup : ¬(namesOf l).Nodup ∨ ¬(namesOf r).Nodup) :
    run fs (prog :: p1 :: p2 :: rest) = .error .mergeError ∧
    ∀ out, run fs (prog :: p1 :: p2 :: rest) ≠ .ok out := by
  have hread1 : read_csv fs p1 = .ok l := by unfold read_csv; rw [h1]
  have hread2 : read_csv fs p2 = .ok r := by unfold read_csv; rw [h2]
  have hm : merge l r = .error .mergeError := by
    unfold merge
    rw [if_pos hn1, if_pos hn2, if_neg (by tauto)]
  have hrun : run fs (prog :: p1 :: p2 :: rest) = .error .mergeError := by
    rw [run_eval, hread1, hread2]
    show Except.bind (merge l r) _ = _
    rw [hm]
    rfl
  exact ⟨hrun, fun out h => by rw [hrun] at h; exact Except.noConfusion h⟩

/-- Instance of `claim_C5_duplicate_name`: the key `X` occurs twice in the
reference file, and the run dies with a `MergeError`. -/
theorem claim_C5_duplicate_name_witness :
    run fsDup ["compare", "dup.csv", "ok.csv"] = .error .mergeError :=
  (claim_C5_duplicate_name fsDup "compare" "dup.csv" "ok.csv" [] tDupName tZeroRes
    (by decide) (by decide) (by decide) (by decide) (.inl (by decide))).1

/-- **C7** (amended): the script indexes `argv[1]` and `argv[2]` without
an argument-count check.  With fewer than two positional arguments it dies
with an error (an `IndexError`, or a `ParseError` if the single given file
is unreadable) and a non-zero exit status; arguments beyond the first two
are ignored and do not affect the result. -/
theorem claim_C7_amended_argv :
    (∀ (fs : String → Option Table) (argv : List String), argv.length < 3 →
       ∃ e, run fs argv = .error e) ∧
    (∀ (fs : String → Option Table) (prog p1 p2 : String) (rest rest' : List String),
       run fs (prog :: p1 :: p2 :: rest) = run fs (prog :: p1 :: p2 :: rest')) := by
  constructor
  · intro fs argv hlen
    match argv with
    | [] => exact ⟨.indexError, rfl⟩
    | [a] => exact ⟨.indexError, rfl⟩
    | [a, b] =>
      have hr : run fs [a, b]
          = Except.bind (read_csv fs b) fun _ =>
              (.error .indexError : Except Err Output) := by
        unfold run getArg
        simp only [List.getElem?_cons_succ, List.getElem?_cons_zero]
        rfl
      cases hfs : fs b with
      | none =>
        exact ⟨.parseError, by rw [hr]; unfold read_csv; rw [hfs]; rfl⟩
      | some t =>
        exact ⟨.indexError, by rw [hr]; unfold read_csv; rw [hfs]; rfl⟩
    | a :: b :: c :: rest => simp at hlen; omega
  · intro fs prog p1 p2 rest rest'
    rw [run_eval, run_eval]

/-- Instance of `claim_C7_amended_argv`: one positional argument errors;
two extra positional arguments leave the result unchanged. -/
theorem claim_C7_amended_argv_witness :
    (∃ e, run fsC8 ["compare"] = .error e) ∧
    run fsC8 ["compare", "ref.csv", "res.csv"]
      = run fsC8 ["compare", "ref.csv", "res.csv", "x", "y"] :=
  ⟨claim_C7_amended_argv.1 fsC8 ["compare"] (by decide),
   claim_C7_amended_argv.2 fsC8 "compare" "ref.csv" "res.csv" [] ["x", "y"]⟩

/-- **C9**: on a joined row whose `Mean_ref` is exactly zero, pandas IEEE
division makes `Speedup_rel` negative infinity when `Mean_res` is strictly
positive — and `-inf < -SIGNIFICANT`, so the row is printed in the
`SLOWER` group — while `Mean_ref = Mean_res = 0` gives `Speedup_rel = NaN`
and the row is kept out of both groups. -/
theorem claim_C9_zero_mean_ref
    (t : Table) (row : List Cell) (hmem : row ∈ t.rows)
    (hlen : row.length = t.cols.length)
    (hs : "Speedup_rel" ∉ t.cols)
    (h0 : getNum t.cols row "Mean_ref" = PFloat.fin 0) :
    (∀ b : ℚ, getNum t.cols row "Mean_res" = PFloat.fin b → 0 < b →
       speedupCell t.cols row = PFloat.ninf ∧
       ∃ t', deriveTable t = .ok t' ∧
         row ++ [Cell.num PFloat.ninf] ∈ slowerRows t' ∧
         locCols t'.cols (row ++ [Cell.num PFloat.ninf]) ∈ (report t').slower) ∧
    (getNum t.cols row "Mean_res" = PFloat.fin 0 →
       speedupCell t.cols row = PFloat.nan ∧
       ∃ t', deriveTable t = .ok t' ∧
         row ++ [Cell.num PFloat.nan] ∉ slowerRows t' ∧
         row ++ [Cell.num PFloat.nan] ∉ fasterRows t') := by
  have hmr : "Mean_ref" ∈ t.cols := mem_of_getNum_fin h0
  constructor
  · intro b hb hbpos
    have hms : "Mean_res" ∈ t.cols := mem_of_getNum_fin hb
    have hspeed : speedupCell t.cols row = PFloat.ninf := by
      unfold speedupCell
      rw [h0, hb]
      have hred : PFloat.pdiv (PFloat.psub (PFloat.fin 0) (PFloat.fin b)) (PFloat.fin 0)
          = if (0 : ℚ) = 0 then
              (if qsub 0 b = 0 then PFloat.nan
               else if 0 < qsub 0 b then PFloat.pinf else PFloat.ninf)
            else PFloat.fin (qdiv (qsub 0 b) 0) := rfl
      have h1 : qsub 0 b ≠ 0 := by
        rw [qsub_eq, zero_sub]
        exact neg_ne_zero.mpr hbpos.ne'
      have h2 : ¬(0 < qsub 0 b) := by
        rw [qsub_eq, zero_sub, not_lt]
        linarith
      rw [hred, if_pos rfl, if_neg h1, if_neg h2]
    have hd := deriveTable_eq_append t hmr hms hs
    have hslow : row ++ [Cell.num PFloat.ninf]
        ∈ slowerRows ⟨t.cols ++ ["Speedup_rel"],
            t.rows.map fun r => r ++ [Cell.num (speedupCell t.cols r)]⟩ := by
      apply List.mem_filter.mpr
      constructor
      · have hmm : row ++ [Cell.num (speedupCell t.cols row)]
            ∈ t.rows.map fun r => r ++ [Cell.num (speedupCell t.cols r)] :=
          List.mem_map_of_mem _ hmem
        rw [hspeed] at hmm
        exact hmm
      · show PFloat.plt
          (getNum (t.cols ++ ["Speedup_rel"]) (row ++ [Cell.num PFloat.ninf]) "Speedup_rel")
          (PFloat.fin (-SIGNIFICANT)) = true
        rw [getNum_speedup_append hs hlen]
        rfl
    exact ⟨hspeed, _, hd, hslow, List.mem_map_of_mem _ hslow⟩
  · intro hb0
    have hms : "Mean_res" ∈ t.cols := mem_of_getNum_fin hb0
    have hspeed : speedupCell t.cols row = PFloat.nan := by
      unfold speedupCell
      rw [h0, hb0]
      have hred : PFloat.pdiv (PFloat.psub (PFloat.fin 0) (PFloat.fin 0)) (PFloat.fin 0)
          = if (0 : ℚ) = 0 then
              (if qsub 0 0 = 0 then PFloat.nan
               else if 0 < qsub 0 0 then PFloat.pinf else PFloat.ninf)
            else PFloat.fin (qdiv (qsub 0 0) 0) := rfl
      rw [hred, if_pos rfl, if_pos (by rw [qsub_eq, zero_sub, neg_zero])]
    have hd := deriveTable_eq_append t hmr hms hs
    refine ⟨hspeed, _, hd, ?_, ?_⟩
    · intro hcontra
      have hp := (List.mem_filter.mp hcontra).2
      rw [show getNum (t.cols ++ ["Speedup_rel"]) (row ++ [Cell.num PFloat.nan]) "Speedup_rel"
            = PFloat.nan from getNum_speedup_append hs hlen _] at hp
      exact Bool.noConfusion hp
    · intro hcontra
      have hp := (List.mem_filter.mp hcontra).2
      rw [show getNum (t.cols ++ ["Speedup_rel"]) (row ++ [Cell.num PFloat.nan]) "Speedup_rel"
            = PFloat.nan from getNum_speedup_append hs hlen _] at hp
      exact Bool.noConfusion hp

/-- Instance of `claim_C9_zero_mean_ref` on `tZeroJoined`: the `0 → 2` row
lands in `SLOWER` with `Speedup_rel = -inf`; the `0 → 0` row gets `NaN`
and joins neither group. -/
theorem claim_C9_zero_mean_ref_witness :
    (speedupCell tZeroJoined.cols
        [Cell.str "z", Cell.num (PFloat.fin 0), Cell.num (PFloat.fin 2)]
        = PFloat.ninf ∧
     ∃ t', deriveTable tZeroJoined = .ok t' ∧
       [Cell.str "z", Cell.num (PFloat.fin 0), Cell.num (PFloat.fin 2)]
           ++ [Cell.num PFloat.ninf] ∈ slowerRows t' ∧
       locCols t'.cols ([Cell.str "z", Cell.num (PFloat.fin 0), Cell.num (PFloat.fin 2)]
           ++ [Cell.num PFloat.ninf]) ∈ (report t').slower) ∧
    (speedupCell tZeroJoined.cols
        [Cell.str "w", Cell.num (PFloat.fin 0), Cell.num (PFloat.fin 0)]
        = PFloat.nan ∧
     ∃ t', deriveTable tZeroJoined = .ok t' ∧
       [Cell.str "w", Cell.num (PFloat.fin 0), Cell.num (PFloat.fin 0)]
           ++ [Cell.num PFloat.nan] ∉ slowerRows t' ∧
       [Cell.str "w", Cell.num (PFloat.fin 0), Cell.num (PFloat.fin 0)]
           ++ [Cell.num PFloat.nan] ∉ fasterRows t') :=
  ⟨(claim_C9_zero_mean_ref tZeroJoined
      [Cell.str "z", Cell.num (PFloat.fin 0), Cell.num (PFloat.fin 2)]
      (by decide) (by decide) (by decide) (by decide)).1 2 (by decide) (by decide),
   (claim_C9_zero_mean_ref tZeroJoined
      [Cell.str "w", Cell.num (PFloat.fin 0), Cell.num (PFloat.fin 0)]
      (by decide) (by decide) (by decide) (by decide)).2 (by decide)⟩

/-- **C6** (amended): `read_csv` fails (the modelled `ParseError`) exactly
for missing/unreadable/malformed files, and any such failure aborts the
run with a non-zero exit status; an absent required column, however, is
not detected at load time — loading succeeds and the run dies later, with
a `KeyError` at the join (missing `Name`) or at the derive step (missing
`Mean`). -/
theorem claim_C6_amended_load :
    (∀ (fs : String → Option Table) (p : String),
       fs p = none → read_csv fs p = .error .parseError) ∧
    (∀ (fs : String → Option Table) (prog p1 p2 : String) (rest : List String),
       fs p1 = none →
       run fs (prog :: p1 :: p2 :: rest) = .error .parseError) ∧
    (∀ (fs : String → Option Table) (prog p1 p2 : String) (rest : List String)
       (l : Table), fs p1 = some l → fs p2 = none →
       run fs (prog :: p1 :: p2 :: rest) = .error .parseError) ∧
    (∀ (fs : String → Option Table) (prog p1 p2 : String) (rest : List String)
       (l r : Table), fs p1 = some l → fs p2 = some r →
       ("Name" ∉ l.cols ∨ "Name" ∉ r.cols) →
       run fs (prog :: p1 :: p2 :: rest) = .error .keyError) ∧
    (∀ (fs : String → Option Table) (prog p1 p2 : String) (rest : List String)
       (l r : Table), fs p1 = some l → fs p2 = some r →
       (namesOf l).Nodup → (namesOf r).Nodup →
       l.cols = ["Name", "Mean"] → r.cols = ["Name"] →
       read_csv fs p1 = .ok l ∧ read_csv fs p2 = .ok r ∧
       run fs (prog :: p1 :: p2 :: rest) = .error .keyError) := by
  refine ⟨?_, ?_, ?_, ?_, ?_⟩
  · intro fs p hp
    unfold read_csv
    rw [hp]
  · intro fs prog p1 p2 rest hp
    rw [run_eval]
    have : read_csv fs p1 = .error .parseError := by unfold read_csv; rw [hp]
    rw [this]
    rfl
  · intro fs prog p1 p2 rest l hp1 hp2
    rw [run_eval]
    have h1 : read_csv fs p1 = .ok l := by unfold read_csv; rw [hp1]
    have h2 : read_csv fs p2 = .error .parseError := by unfold read_csv; rw [hp2]
    rw [h1]
    show Except.bind (read_csv fs p2) _ = _
    rw [h2]
    rfl
  · intro fs prog p1 p2 rest l r hp1 hp2 hname
    rw [run_eval]
    have h1 : read_csv fs p1 = .ok l := by unfold read_csv; rw [hp1]
    have h2 : read_csv fs p2 = .ok r := by unfold read_csv; rw [hp2]
    rw [h1]
    show Except.bind (read_csv fs p2) _ = _
    rw [h2]
    show Except.bind (merge l r) _ = _
    have hm : merge l r = .error .keyError := by
      unfold merge
      by_cases hl : "Name" ∈ l.cols
      · rw [if_pos hl, if_neg (hname.resolve_left (fun hc => hc hl))]
      · rw [if_neg hl]
    rw [hm]
    rfl
  · intro fs prog p1 p2 rest l r hp1 hp2 hnl hnr hl hr
    have h1 : read_csv fs p1 = .ok l := by unfold read_csv; rw [hp1]
    have h2 : read_csv fs p2 = .ok r := by unfold read_csv; rw [hp2]
    exact ⟨h1, h2,
      (run_missing_mean_aux fs prog p1 p2 rest l r hp1 hp2 hnl hnr (.inl ⟨hl, hr⟩)).2.2.2⟩

/-- Instance of `claim_C6_amended_load`: a missing file is a load failure;
a present file lacking `Mean` loads fine and the run dies later with a
`KeyError`. -/
theorem claim_C6_amended_load_witness :
    read_csv fsNoMean "missing.csv" = .error .parseError ∧
    (read_csv fsNoMean "good.csv" = .ok tZeroRes ∧
     read_csv fsNoMean "bad.csv" = .ok tNoMean ∧
     run fsNoMean ["compare", "good.csv", "bad.csv"] = .error .keyError) :=
  ⟨claim_C6_amended_load.1 fsNoMean "missing.csv" (by decide),
   claim_C6_amended_load.2.2.2.2 fsNoMean "compare" "good.csv" "bad.csv" []
     tZeroRes tNoMean (by decide) (by decide) (by decide) (by decide)
     (by decide) (by decide)⟩

/-- **C10**: the `_ref`/`_res` suffixes touch only columns occurring on
both sides.  When exactly one input has a `Mean` column the join succeeds
and keeps `Mean` unsuffixed, so no `Mean_ref` column exists, the derive
step raises `KeyError`, and the process aborts with non-zero status before
printing anything — and none of this is detected at load time. -/
theorem claim_C10_unsuffixed_mean
    (fs : String → Option Table) (prog p1 p2 : String) (rest : List String)
    (l r : Table) (h1 : fs p1 = some l) (h2 : fs p2 = some r)
    (hnl : (namesOf l).Nodup) (hnr : (namesOf r).Nodup)
    (hcase : (l.cols = ["Name", "Mean"] ∧ r.cols = ["Name"])
           ∨ (l.cols = ["Name"] ∧ r.cols = ["Name", "Mean"])) :
    read_csv fs p1 = .ok l ∧
    read_csv fs p2 = .ok r ∧
    merge l r = .ok (mergeTable l r) ∧
    (mergeTable l r).cols = ["Name", "Mean"] ∧
    "Mean_ref" ∉ (mergeTable l r).cols ∧
    deriveTable (mergeTable l r) = .error .keyError ∧
    run fs (prog :: p1 :: p2 :: rest) = .error .keyError ∧
    ∀ out, run fs (prog :: p1 :: p2 :: rest) ≠ .ok out := by
  obtain ⟨hm, hc, hd, hrun⟩ :=
    run_missing_mean_aux fs prog p1 p2 rest l r h1 h2 hnl hnr hcase
  refine ⟨by unfold read_csv; rw [h1], by unfold read_csv; rw [h2],
    hm, hc, ?_, hd, hrun, fun out h => by rw [hrun] at h; exact Except.noConfusion h⟩
  rw [hc]
  decide

/-- Instance of `claim_C10_unsuffixed_mean`: joining a `Name, Mean` file
with a `Name`-only file keeps `Mean` unsuffixed and kills the run at the
derive step. -/
theorem claim_C10_unsuffixed_mean_witness :
    read_csv fsNoMean "good.csv" = .ok tZeroRes ∧
    read_csv fsNoMean "bad.csv" = .ok tNoMean ∧
    merge tZeroRes tNoMean = .ok (mergeTable tZeroRes tNoMean) ∧
    (mergeTable tZeroRes tNoMean).cols = ["Name", "Mean"] ∧
    "Mean_ref" ∉ (mergeTable tZeroRes tNoMean).cols ∧
    deriveTable (mergeTable tZeroRes tNoMean) = .error .keyError ∧
    run fsNoMean ["compare", "good.csv", "bad.csv"] = .error .keyError ∧
    ∀ out, run fsNoMean ["compare", "good.csv", "bad.csv"] ≠ .ok out :=
  claim_C10_unsuffixed_mean fsNoMean "compare" "good.csv" "bad.csv" []
    tZeroRes tNoMean (by decide) (by decide) (by decide) (by decide)
    (.inl ⟨by decide, by decide⟩)

/-- **C4**: on well-formed inputs with unique keys, the merge succeeds as a
one-to-one outer join on `Name` whose shared `Mean` column is suffixed into
`Mean_ref` / `Mean_res`; every `Name` present in either input appears in
exactly one joined row, and for a `Name` present in both inputs that row
carries the `Mean` of each side. -/
theorem claim_C4_outer_join
    (l r : Table) (hl : BenchTable l) (hr : BenchTable r)
    (hnl : (namesOf l).Nodup) (hnr : (namesOf r).Nodup) :
    merge l r = .ok (mergeTable l r) ∧
    (mergeTable l r).cols = ["Name", "Mean_ref", "Mean_res"] ∧
    (∀ n, (n ∈ namesOf l ∨ n ∈ namesOf r) →
       ((mergeTable l r).rows.filter fun row =>
          rowName (mergeTable l r).cols row == n).length = 1) ∧
    (∀ n, n ∈ namesOf l → n ∈ namesOf r →
       ∃ a b, lookupMean l n = some a ∧ lookupMean r n = some b ∧
         ∀ row ∈ (mergeTable l r).rows,
           rowName (mergeTable l r).cols row = n →
             getNum (mergeTable l r).cols row "Mean_ref" = a ∧
             getNum (mergeTable l r).cols row "Mean_res" = b) := by
  refine ⟨merge_ok_bench hl hr hnl hnr, mergedCols_bench hl.1 hr.1,
    fun n hn => count_merged_names hl hr hnl hnr n hn, ?_⟩
  intro n hmln hmrn
  obtain ⟨lrow, hfl, hlmem, hlname⟩ :=
    find?_exists_of_mem (rowName l.cols) l.rows n hmln
  obtain ⟨rrow, hfr, hrmem, hrname⟩ :=
    find?_exists_of_mem (rowName r.cols) r.rows n hmrn
  rcases benchRow_shape lrow (hl.2 lrow hlmem) with ⟨nl2, ml, rfl⟩
  have hnl2 : rowName l.cols [Cell.str nl2, Cell.num ml] = nl2 := by rw [hl.1]; rfl
  rw [hnl2] at hlname
  rw [hlname] at hfl
  rcases benchRow_shape rrow (hr.2 rrow hrmem) with ⟨nr2, mr, rfl⟩
  have hnr2 : rowName r.cols [Cell.str nr2, Cell.num mr] = nr2 := by rw [hr.1]; rfl
  rw [hnr2] at hrname
  rw [hrname] at hfr
  have hfl' : findByName l n = some [Cell.str n, Cell.num ml] := hfl
  have hfr' : findByName r n = some [Cell.str n, Cell.num mr] := hfr
  have ha : lookupMean l n = some ml := by
    unfold lookupMean
    rw [hfl', hl.1]
    rfl
  have hb : lookupMean r n = some mr := by
    unfold lookupMean
    rw [hfr', hr.1]
    rfl
  refine ⟨ml, mr, ha, hb, ?_⟩
  intro row hrow hname
  have hrow' : row ∈ l.rows.map (mergeRowLeft l r)
      ++ ((r.rows.filter fun rrow =>
            !((namesOf l).contains (rowName r.cols rrow))).map
          (mergeRowRight l r)) := hrow
  rcases List.mem_append.mp hrow' with hleft | hright
  · rcases List.mem_map.mp hleft with ⟨lrow2, hl2mem, rfl⟩
    rcases benchRow_shape lrow2 (hl.2 lrow2 hl2mem) with ⟨n2, m2, rfl⟩
    rw [mergeRowLeft_bench hl hr] at hname ⊢
    rw [rowName_merged hl.1 hr.1] at hname
    subst hname
    have huniq : l.rows.find? (fun row => rowName l.cols row == n2)
        = some [Cell.str n2, Cell.num m2] := by
      apply find?_eq_some_of_nodup (rowName l.cols) l.rows hnl _ hl2mem
      rw [hl.1]
      rfl
    have heq : ([Cell.str n2, Cell.num ml] : List Cell)
        = [Cell.str n2, Cell.num m2] := by
      have hcomb : (some [Cell.str n2, Cell.num ml] : Option (List Cell))
          = some [Cell.str n2, Cell.num m2] := hfl'.symm.trans huniq
      exact Option.some.inj hcomb
    have hml : ml = m2 := by
      have := List.cons.inj heq
      have h2 := List.cons.inj this.2
      exact Cell.num.inj h2.1
    constructor
    · rw [getNum_merged_ref hl.1 hr.1, hml]
    · rw [getNum_merged_res hl.1 hr.1, hb]
      rfl
  · rcases List.mem_map.mp hright with ⟨rrow2, hr2mem, rfl⟩
    have hr2mem' := List.mem_of_mem_filter hr2mem
    have hpred := List.of_mem_filter hr2mem
    rcases benchRow_shape rrow2 (hr.2 rrow2 hr2mem') with ⟨n2, m2, rfl⟩
    rw [mergeRowRight_bench hl hr] at hname
    rw [rowName_merged hl.1 hr.1] at hname
    subst hname
    rw [show rowName r.cols [Cell.str n2, Cell.num m2] = n2 from by rw [hr.1]; rfl]
      at hpred
    simp at hpred
    exact absurd hmln hpred

/-- Instance of `claim_C4_outer_join` on the worked scenario, at the key
`sort` (present in both inputs). -/
theorem claim_C4_outer_join_witness :
    merge refTableC8 resTableC8 = .ok (mergeTable refTableC8 resTableC8) ∧
    (mergeTable refTableC8 resTableC8).cols = ["Name", "Mean_ref", "Mean_res"] ∧
    ((mergeTable refTableC8 resTableC8).rows.filter fun row =>
       rowName (mergeTable refTableC8 resTableC8).cols row == "sort").length = 1 ∧
    ∃ a b, lookupMean refTableC8 "sort" = some a ∧
      lookupMean resTableC8 "sort" = some b ∧
      ∀ row ∈ (mergeTable refTableC8 resTableC8).rows,
        rowName (mergeTable refTableC8 resTableC8).cols row = "sort" →
          getNum (mergeTable refTableC8 resTableC8).cols row "Mean_ref" = a ∧
          getNum (mergeTable refTableC8 resTableC8).cols row "Mean_res" = b := by
  obtain ⟨h1, h2, h3, h4⟩ := claim_C4_outer_join refTableC8 resTableC8
    (by decide) (by decide) (by decide) (by decide)
  exact ⟨h1, h2, h3 "sort" (.inl (by decide)), h4 "sort" (by decide) (by decide)⟩

/-- **C3** (amended): a joined row whose `Speedup_rel` is `NaN` (missing
side, or `0/0`), or finite within `±SIGNIFICANT`, is printed in neither
group; in particular a `Name` present in only one input (whose `Speedup_rel`
is `NaN`) appears in neither group.  (A zero `Mean_ref` with nonzero
`Mean_res` gives `±inf`, not `NaN`, and such a row can be printed —
see the counterexample.) -/
theorem claim_C3_amended_excluded
    (l r : Table) (hl : BenchTable l) (hr : BenchTable r)
    (hnl : (namesOf l).Nodup) (hnr : (namesOf r).Nodup)
    (t : Table) (ht : deriveTable (mergeTable l r) = .ok t)
    (n : String)
    (hcond : speedupOfName t n = PFloat.nan ∨
       (∃ q, speedupOfName t n = PFloat.fin q ∧
          -SIGNIFICANT ≤ q ∧ q ≤ SIGNIFICANT) ∨
       (n ∈ namesOf l ∧ n ∉ namesOf r) ∨ (n ∉ namesOf l ∧ n ∈ namesOf r)) :
    (∀ x ∈ (report t).slower, rowName reportCols x ≠ n) ∧
    (∀ x ∈ (report t).faster, rowName reportCols x ≠ n) := by
  have hmtcols := mergedCols_bench hl.1 hr.1
  have hmr : "Mean_ref" ∈ (mergeTable l r).cols := by rw [hmtcols]; decide
  have hms : "Mean_res" ∈ (mergeTable l r).cols := by rw [hmtcols]; decide
  have hsns : "Speedup_rel" ∉ (mergeTable l r).cols := by rw [hmtcols]; decide
  have hder := deriveTable_eq_append (mergeTable l r) hmr hms hsns
  rw [hder] at ht
  replace ht := (Except.ok.inj ht).symm
  have hTcols : t.cols = ["Name", "Mean_ref", "Mean_res", "Speedup_rel"] := by
    rw [ht]
    show (mergeTable l r).cols ++ ["Speedup_rel"] = _
    rw [hmtcols]
    rfl
  have hTrows : t.rows = (mergeTable l r).rows.map fun row =>
      row ++ [Cell.num (speedupCell (mergeTable l r).cols row)] := by
    rw [ht]
  have hnodupT : (t.rows.map (rowName t.cols)).Nodup := by
    have hnames : t.rows.map (rowName t.cols) = namesOf (mergeTable l r) := by
      rw [hTrows, List.map_map]
      apply List.map_congr_left
      intro mrow hmmem
      rcases mergeTable_rows_shape hl hr mrow hmmem with ⟨n2, x, y, rfl⟩
      simp only [Function.comp_apply]
      rw [hTcols, hmtcols]
      rfl
    rw [hnames]
    exact namesOf_mergeTable_nodup hl hr hnl hnr
  have hside : (n ∉ namesOf l ∨ n ∉ namesOf r) → speedupOfName t n = PFloat.nan := by
    intro hnb
    cases hfb : findByName t n with
    | none =>
      unfold speedupOfName
      rw [hfb, hTcols]
      rfl
    | some row =>
      have hfb' : t.rows.find? (fun row => rowName t.cols row == n) = some row := hfb
      have hrmem : row ∈ t.rows := List.mem_of_find?_eq_some hfb'
      have hrname : rowName t.cols row = n := by
        have hp := List.find?_some hfb'
        simpa using hp
      have hsval : speedupOfName t n = getNum t.cols row "Speedup_rel" := by
        unfold speedupOfName
        rw [hfb]
        rfl
      rw [hsval]
      rw [hTrows] at hrmem
      rcases List.mem_map.mp hrmem with ⟨mrow, hmmem, rfl⟩
      have hmrow' : mrow ∈ l.rows.map (mergeRowLeft l r)
          ++ ((r.rows.filter fun rrow =>
                !((namesOf l).contains (rowName r.cols rrow))).map
              (mergeRowRight l r)) := hmmem
      rcases List.mem_append.mp hmrow' with hleft | hright
      · rcases List.mem_map.mp hleft with ⟨lrow, hlmem, rfl⟩
        rcases benchRow_shape lrow (hl.2 lrow hlmem) with ⟨n2, ml, rfl⟩
        rw [mergeRowLeft_bench hl hr] at hrname ⊢
        have hname2 : rowName t.cols
            ([Cell.str n2, Cell.num ml, Cell.num ((lookupMean r n2).getD PFloat.nan)]
              ++ [Cell.num (speedupCell (mergeTable l r).cols
                    [Cell.str n2, Cell.num ml,
                     Cell.num ((lookupMean r n2).getD PFloat.nan)])]) = n2 := by
          rw [hTcols]
          rfl
        rw [hname2] at hrname
        have hmemn : n2 ∈ namesOf l := by
          show n2 ∈ l.rows.map (rowName l.cols)
          refine List.mem_map.mpr ⟨[Cell.str n2, Cell.num ml], hlmem, ?_⟩
          rw [hl.1]
          rfl
        have hnb2 : n2 ∉ namesOf l ∨ n2 ∉ namesOf r := by rw [hrname]; exact hnb
        have hnr2 : n2 ∉ namesOf r := hnb2.resolve_left fun hc => hc hmemn
        have hlook : lookupMean r n2 = none := by
          unfold lookupMean findByName
          rw [find?_eq_none_of_not_mem (rowName r.cols) r.rows n2 hnr2]
          rfl
        rw [hlook, hTcols, hmtcols]
        show PFloat.pdiv (PFloat.psub ml PFloat.nan) ml = PFloat.nan
        rw [PFloat.psub_nan_right, PFloat.pdiv_nan_left]
      · rcases List.mem_map.mp hright with ⟨rrow, hrrmem, rfl⟩
        rcases benchRow_shape rrow (hr.2 rrow (List.mem_of_mem_filter hrrmem))
          with ⟨n2, mr2, rfl⟩
        rw [mergeRowRight_bench hl hr]
        rw [hTcols, hmtcols]
        show PFloat.pdiv (PFloat.psub PFloat.nan mr2) PFloat.nan = PFloat.nan
        rw [PFloat.psub_nan_left]
        rfl
  have hcond' : speedupOfName t n = PFloat.nan ∨
      (∃ q, speedupOfName t n = PFloat.fin q ∧
         -SIGNIFICANT ≤ q ∧ q ≤ SIGNIFICANT) := by
    rcases hcond with h | h | ⟨hin, hout⟩ | ⟨hout, hin⟩
    · exact .inl h
    · exact .inr h
    · exact .inl (hside (.inr hout))
    · exact .inl (hside (.inl hout))
  have hmain : ∀ row ∈ t.rows, rowName t.cols row = n →
      PFloat.plt (getNum t.cols row "Speedup_rel") (PFloat.fin (-SIGNIFICANT)) = false ∧
      PFloat.plt (PFloat.fin SIGNIFICANT) (getNum t.cols row "Speedup_rel") = false := by
    intro row hrow hname
    have hsval : speedupOfName t n = getNum t.cols row "Speedup_rel" := by
      unfold speedupOfName findByName
      rw [find?_eq_some_of_nodup (rowName t.cols) t.rows hnodupT row hrow n hname]
      rfl
    rcases hcond' with hnan | ⟨q, hq, hq1, hq2⟩
    · rw [hsval] at hnan
      rw [hnan]
      exact ⟨rfl, rfl⟩
    · rw [hsval] at hq
      rw [hq]
      constructor
      · show decide (q < -SIGNIFICANT) = false
        simp only [decide_eq_false_iff_not]
        exact not_lt.mpr hq1
      · show decide (SIGNIFICANT < q) = false
        simp only [decide_eq_false_iff_not]
        exact not_lt.mpr hq2
  constructor
  · intro x hx hxname
    rcases List.mem_map.mp hx with ⟨row, hrowf, rfl⟩
    have hrmem := (List.mem_filter.mp hrowf).1
    have hpred := (List.mem_filter.mp hrowf).2
    rw [rowName_locCols] at hxname
    have hfalse := (hmain row hrmem hxname).1
    rw [hfalse] at hpred
    exact Bool.noConfusion hpred
  · intro x hx hxname
    rcases List.mem_map.mp hx with ⟨row, hrowf, rfl⟩
    have hrmem := (List.mem_filter.mp hrowf).1
    have hpred := (List.mem_filter.mp hrowf).2
    rw [rowName_locCols] at hxname
    have hfalse := (hmain row hrmem hxname).2
    rw [hfalse] at hpred
    exact Bool.noConfusion hpred

/-- Instance of `claim_C3_amended_excluded` on the worked scenario: the
`search` row (`Speedup_rel = -0.04`, within the threshold) is printed in
neither group. -/
theorem claim_C3_amended_excluded_witness :
    (∀ x ∈ (report compC8).slower, rowName reportCols x ≠ "search") ∧
    (∀ x ∈ (report compC8).faster, rowName reportCols x ≠ "search") :=
  claim_C3_amended_excluded refTableC8 resTableC8 (by decide) (by decide)
    (by decide) (by decide) compC8 (by decide) "search"
    (.inr (.inl ⟨mkRat (-1) 25, by decide, by decide, by decide⟩))
